import Mathlib

/-!
Shallow embedding of `src/run_static_analysis.py` (Backbone-Labs/StaticAnalysis).

The `sa_utils` module of the repository is not under `src/`; the handful of helpers
the main module calls from it (`get_file_line_end`, `is_part_of_pr_changes`,
`generate_description`, `check_for_char_limit`, the excluded-directory test and
the configuration constants) are modelled from the spec, each marked with a
doc comment starting `Modelled from the spec:`.  Everything else is translated
directly from `src/run_static_analysis.py`.

File contents are lists of lines (Python `readlines`, each line normally
keeping its trailing newline).  The file system is a total map
`String → Option (List String)`; `none` models `FileNotFoundError`.
Python exceptions are modelled by `Except PyErr`.
-/

namespace StaticAnalysis

/-! ### Python string primitives -/

/-- Python `s.startswith(pat)`.  Stated on the character lists so that the
kernel can evaluate it (`String.startsWith` is defined by well-founded
recursion and does not reduce definitionally). -/
def pyStartsWith (s pat : String) : Bool :=
  pat.toList.isPrefixOf s.toList

/-- Python `s.replace(pat, "")`, structurally recursive on an explicit fuel
(the fuel equals the input length at the top-level call, so the `0` fallback
is unreachable): delete every non-overlapping occurrence of `pat`, scanning
left to right.  An empty pattern deletes nothing, matching Python `replace`
with an empty replacement string. -/
def dropPattern (pat : List Char) : Nat → List Char → List Char
  | _, [] => []
  | 0, l => l
  | fuel + 1, c :: cs =>
    if !pat.isEmpty && pat.isPrefixOf (c :: cs) then
      dropPattern pat fuel (List.drop (pat.length - 1) cs)
    else
      c :: dropPattern pat fuel cs

/-- Python `line.replace(pat, "")` on strings. -/
def pyReplace (s pat : String) : String :=
  String.mk (dropPattern pat.toList s.toList.length s.toList)

/-- Value of one decimal digit character. -/
def digitVal (c : Char) : Nat := c.toNat - 48

/-- Python `int(s)` for the plain-decimal-digits case the tool output uses
(`none` models the raised `ValueError`; sign and surrounding whitespace,
which `int` would also accept, never occur in the consumed line format). -/
def pyInt? (s : String) : Option Nat :=
  if s.toList ≠ [] ∧ s.toList.all (fun c => c.isDigit) then
    some (s.toList.foldl (fun a c => 10 * a + digitVal c) 0)
  else none

/-- Python `s.lstrip("/")`: remove every leading slash. -/
def pyLstripSlash (s : String) : String :=
  String.mk (s.toList.dropWhile (fun c => c = '/'))

/-- Python `s.index(c)` as an `Option`; `none` models the raised `ValueError`. -/
def strIdx (s : String) (c : Char) : Option Nat :=
  s.toList.findIdx? (fun d => d = c)

/-- Python `s[:n]` for `0 ≤ n`. -/
def strTake (s : String) (n : Nat) : String :=
  String.mk (s.toList.take n)

/-- Python `s[n:]` for `0 ≤ n`. -/
def strDrop (s : String) (n : Nat) : String :=
  String.mk (s.toList.drop n)

/-- Python `s[:-1]`: drop the final character (the empty string stays empty). -/
def pyDropLast (s : String) : String :=
  String.mk s.toList.dropLast

/-- Normalisation of one Python slice index against a list of length `n`:
negative indices count from the end, then the result is clamped to `[0, n]`. -/
def pySliceNorm (n : Nat) (i : Int) : Nat :=
  if i < 0 then (i + n).toNat else min i.toNat n

/-- Python `l[a:b]` with full slice-index semantics. -/
def pySlice {α : Type} (l : List α) (a b : Int) : List α :=
  (l.take (pySliceNorm l.length b)).drop (pySliceNorm l.length a)

/-! ### Data model -/

/-- Python exceptions that the translated code can raise. -/
inductive PyErr where
  | keyError
  | indexError
  | valueError
deriving DecidableEq

/-- `utils.FILES_WITH_ISSUES`: the per-run file-content cache, an insertion
ordered association list from file path to list of lines. -/
abbrev Cache := List (String × List String)

def cacheLookup : Cache → String → Option (List String)
  | [], _ => none
  | (k, v) :: rest, key => if k = key then some v else cacheLookup rest key

def cacheInsert (c : Cache) (k : String) (v : List String) : Cache :=
  c ++ [(k, v)]

/-- The changed-files mapping: file path to list of closed line intervals. -/
abbrev FCP := List (String × List (Nat × Nat))

/-- The configuration the script reads from `sa_utils` globals and the
environment: file system, excluded-directory test, repository names, commit
SHA and the comment size budget (`COMMENT_MAX_SIZE`). -/
structure Cfg where
  fs : String → Option (List String)
  excludedDir : String → Bool
  repoName : String
  targetRepoName : String
  sha : String
  commentMax : Nat

/-- The mutable `sa_utils` globals threaded between the two per-tool runs:
`FILES_WITH_ISSUES` and `CURRENT_COMMENT_LENGTH`. -/
structure Globals where
  cache : Cache
  counter : Nat
deriving DecidableEq

/-! ### Helpers modelled from the spec (their code lives in `sa_utils`,
which is not under `src/`) -/

/-- Contribution of one character to the bracket balance (spec section 4.2:
"unbalanced open brackets/parentheses"). -/
def charBalance (c : Char) : Int :=
  if c = '(' || c = '[' || c = '{' then 1
  else if c = ')' || c = ']' || c = '}' then -1
  else 0

/-- Bracket balance of one source line. -/
def lineBalance (s : String) : Int :=
  s.toList.foldl (fun a c => a + charBalance c) 0

/-- Advance the end line until the running balance closes or end of file. -/
def balanceScan : Int → Nat → List String → Nat
  | _, e, [] => e
  | acc, e, ln :: rest =>
    let acc2 := acc + lineBalance ln
    if acc2 ≤ 0 then e + 1 else balanceScan acc2 (e + 1) rest

/-- Modelled from the spec: `sa_utils.get_file_line_end` is not under `src/`.
Spec section 4.2: open the file; if the statement at `lineStart` has
unbalanced open brackets/parentheses, advance `lineEnd` until balanced or
end of file; otherwise `lineEnd = lineStart`.  If the file cannot be opened,
record a non-fatal warning and fall back to `lineEnd = lineStart`. -/
def get_file_line_end (fs : String → Option (List String))
    (file_path : String) (file_line_start : Nat) : Nat :=
  match fs file_path with
  | none => file_line_start
  | some lines =>
    match lines.drop (file_line_start - 1) with
    | [] => file_line_start
    | first :: rest =>
      if lineBalance first ≤ 0 then file_line_start
      else balanceScan (lineBalance first) file_line_start rest

/-- Modelled from the spec: `sa_utils.is_part_of_pr_changes` is not under
`src/`.  Spec section 4.3: true if the mapping is empty (PR-scoping
disabled), or the path is present and the line falls within at least one
recorded interval. -/
def is_part_of_pr_changes (file_path : String) (file_line_start : Nat)
    (files_changed_in_pr : FCP) : Bool :=
  files_changed_in_pr.isEmpty ||
    files_changed_in_pr.any (fun pr =>
      pr.1 == file_path &&
        pr.2.any (fun iv => iv.1 ≤ file_line_start && file_line_start ≤ iv.2))

/-- Modelled from the spec: `sa_utils.generate_description` is not under
`src/`.  Spec sections 3 and 4.4: a note contributes its raw text,
undecorated; the description of an issue is handed on to the renderer; no other
transformation of the in-flight pending entry is specified, so both values
are passed through unchanged.  It returns, like the source call site
unpacks, the pending entry followed by the description. -/
def generate_description (is_note was_note : Bool) (file_line_start : Nat)
    (issue_description per_issue_string : String) : String × String :=
  (per_issue_string, issue_description)

/-- Modelled from the spec: `sa_utils.check_for_char_limit` is not under
`src/`.  Spec section 4.4: compute the candidate new total length; if it
would reach or exceed the configured maximum, stop — so the check passes
exactly when the candidate total stays strictly below the maximum. -/
def check_for_char_limit (commentMax current : Nat) (new_line : String) : Bool :=
  current + new_line.length < commentMax

/-! ### Translations of `src/run_static_analysis.py` -/

/-- `extract_info(line, prefix)` (src lines 7-44).  `none` models the
`ValueError` that Python `str.index` / `int` raise on a malformed line. -/
def extract_info (cfg : Cfg) (line pref : String) :
    Option (String × Bool × Nat × Nat × String) :=
  let cleaned := pyLstripSlash (pyReplace line pref)
  match strIdx cleaned ':' with
  | none => none
  | some file_path_end_idx =>
    let file_path := strTake cleaned file_path_end_idx
    let lineRest := strDrop cleaned (file_path_end_idx + 1)
    match strIdx lineRest ':' with
    | none => none
    | some j =>
      match pyInt? (strTake lineRest j) with
      | none => none
      | some file_line_start =>
        let file_line_end := get_file_line_end cfg.fs file_path file_line_start
        match strIdx lineRest ' ' with
        | none => none
        | some k =>
          let issue_description := strDrop lineRest (k + 1)
          some (file_path, pyStartsWith issue_description "note:",
                file_line_start, file_line_end, issue_description)

/-- `generate_output(...)` (src lines 47-111).  Returns the possibly grown
cache together with the rendered line, or the Python exception: `KeyError`
when `FILES_WITH_ISSUES[file_path]` misses after a failed open,
`IndexError` when `modified_content[0]` is taken on an empty slice. -/
def generate_output (cfg : Cfg) (cache : Cache) (is_note : Bool)
    (file_path : String) (file_line_start file_line_end : Nat)
    (description : String) : Cache × Except PyErr String :=
  if !is_note then
    if cfg.targetRepoName ≠ cfg.repoName then
      let cache1 :=
        match cacheLookup cache file_path with
        | some _ => cache
        | none =>
          match cfg.fs file_path with
          | some lines => cacheInsert cache file_path lines
          | none => cache
      match cacheLookup cache1 file_path with
      | none => (cache1, Except.error PyErr.keyError)
      | some lines =>
        let modified_content :=
          pySlice lines ((file_line_start : Int) - 1) ((file_line_end : Int) - 1)
        match modified_content with
        | [] => (cache1, Except.error PyErr.indexError)
        | first :: rest =>
          let marked := pyDropLast first ++ " <---- HERE\n"
          let file_content := String.join (marked :: rest)
          let file_url := "https://github.com/" ++ cfg.repoName ++ "/blob/" ++
            cfg.sha ++ "/" ++ file_path ++ "#L" ++ toString file_line_start
          (cache1, Except.ok ("\n\n------" ++
            "\n\n <b><i>Issue found in file</b></i> [" ++ cfg.repoName ++ "/" ++
            file_path ++ "](" ++ file_url ++ ")\n" ++
            "```cpp\n" ++ file_content ++ "\n``` \n" ++
            description ++ " <br>\n"))
    else
      (cache, Except.ok ("\n\nhttps://github.com/" ++ cfg.repoName ++ "/blob/" ++
        cfg.sha ++ "/" ++ file_path ++ "#L" ++ toString file_line_start ++
        "-L" ++ toString file_line_end ++ " " ++ description ++ " <br>\n"))
  else
    (cache, Except.ok description)

/-- `append_issue(...)` (src lines 114-122): returns the new
`per_issue_string` and the new `list_of_issues`. -/
def append_issue (is_note : Bool) (per_issue_string new_line : String)
    (list_of_issues : List String) : String × List String :=
  if !is_note then
    let list2 :=
      if per_issue_string.length > 0 ∧ per_issue_string ∉ list_of_issues then
        list_of_issues ++ [per_issue_string]
      else list_of_issues
    (new_line, list2)
  else
    (per_issue_string ++ new_line, list_of_issues)

/-- The loop state of `create_comment_for_output`: the cache and counter
globals, the locals of src lines 144-146, an `exceeded` flag modelling the
early `return` of src line 189, and `error` modelling an uncaught Python
exception (after which nothing further executes). -/
structure AggState where
  cache : Cache
  counter : Nat
  issues : List String
  pending : String
  was_note : Bool
  exceeded : Bool
  error : Option PyErr

def initState (g : Globals) : AggState :=
  { cache := g.cache, counter := g.counter, issues := [], pending := "",
    was_note := false, exceeded := false, error := none }

/-- One iteration of the `for line in tool_output` loop
(src lines 148-189). -/
def step (cfg : Cfg) (fcp : FCP) (output_to_console : Bool) (pref : String)
    (s : AggState) (line : String) : AggState :=
  if s.error.isSome || s.exceeded then s
  else if pyStartsWith line pref && !cfg.excludedDir line then
    match extract_info cfg line pref with
    | none => { s with error := some PyErr.valueError }
    | some (file_path, is_note, file_line_start, file_line_end, issue_description) =>
      if output_to_console then
        let r := append_issue is_note s.pending line s.issues
        { s with pending := r.1, issues := r.2 }
      else if is_part_of_pr_changes file_path file_line_start fcp then
        let gd := generate_description is_note s.was_note file_line_start
          issue_description s.pending
        let go := generate_output cfg s.cache is_note file_path
          file_line_start file_line_end gd.2
        match go.2 with
        | Except.error e =>
          { s with was_note := is_note, pending := gd.1, cache := go.1,
                   error := some e }
        | Except.ok new_line =>
          if check_for_char_limit cfg.commentMax s.counter new_line then
            let r := append_issue is_note gd.1 new_line s.issues
            { s with cache := go.1, was_note := is_note, pending := r.1,
                     issues := r.2, counter := s.counter + new_line.length }
          else
            { s with cache := go.1, was_note := is_note, pending := gd.1,
                     counter := cfg.commentMax, exceeded := true }
      else s
  else s

/-- The whole `for` loop of `create_comment_for_output`. -/
def runLines (cfg : Cfg) (fcp : FCP) (output_to_console : Bool) (pref : String)
    (s : AggState) (tool_output : List String) : AggState :=
  tool_output.foldl (step cfg fcp output_to_console pref) s

/-- The end-of-loop flush (src lines 192-193). -/
def flushIssues (s : AggState) : List String :=
  if s.pending.length > 0 ∧ s.pending ∉ s.issues then
    s.issues ++ [s.pending]
  else s.issues

/-- The entry list the run returns: on the early budget return
(src line 189) the pending entry is discarded, otherwise it is flushed. -/
def finalIssues (s : AggState) : List String :=
  if s.exceeded then s.issues else flushIssues s

/-- The return value of `create_comment_for_output` together with the final
globals; an uncaught exception is surfaced as `Except.error`. -/
def finishRun (s : AggState) : Except PyErr (String × Nat) × Globals :=
  match s.error with
  | some e => (Except.error e, { cache := s.cache, counter := s.counter })
  | none =>
    (Except.ok (String.intercalate "\n" (finalIssues s), (finalIssues s).length),
     { cache := s.cache, counter := s.counter })

/-- `create_comment_for_output(...)` (src lines 125-199). -/
def create_comment_for_output (cfg : Cfg) (tool_output : List String)
    (pref : String) (files_changed_in_pr : FCP) (output_to_console : Bool)
    (g : Globals) : Except PyErr (String × Nat) × Globals :=
  finishRun (runLines cfg files_changed_in_pr output_to_console pref
    (initState g) tool_output)

/-- `prepare_comment_body(...)` (src lines 305-354).  `title` is
`utils.COMMENT_TITLE`, `notice` is `utils.MAX_CHAR_COUNT_REACHED`,
`current` is `utils.CURRENT_COMMENT_LENGTH` and `commentMax` is
`utils.COMMENT_MAX_SIZE` — configuration values from `sa_utils`. -/
def prepare_comment_body (title notice : String)
    (cppcheck_comment clang_tidy_comment : String)
    (cppcheck_issues_found clang_tidy_issues_found : Nat)
    (current commentMax : Nat) : String :=
  let base :=
    if cppcheck_issues_found = 0 ∧ clang_tidy_issues_found = 0 then
      "## <p align=\"center\"><b> :white_check_mark:" ++ title ++
        " - no issues found! :white_check_mark: </b></p>"
    else
      let b0 := "## <p align=\"center\"><b> :zap: " ++ title ++
        " :zap: </b></p> \n\n"
      let b1 :=
        if cppcheck_comment.length > 0 then
          b0 ++ "<details> <summary> <b> :red_circle: cppcheck found " ++
            toString cppcheck_issues_found ++ " " ++
            (if cppcheck_issues_found > 1 then "issues" else "issue") ++
            "! Click here to see details. </b> </summary> <br>" ++
            cppcheck_comment ++ " </details>"
        else b0
      let b2 := b1 ++ "\n\n *** \n"
      if clang_tidy_comment.length > 0 then
        b2 ++ "<details> <summary> <b> :red_circle: clang-tidy found " ++
          toString clang_tidy_issues_found ++ " " ++
          (if clang_tidy_issues_found > 1 then "issues" else "issue") ++
          "! Click here to see details. </b> </summary> <br>" ++
          clang_tidy_comment ++ " </details><br>\n"
      else b2
  if current = commentMax then
    base ++ "\n```diff\n" ++ notice ++ "\n```"
  else base

/-! ### Concrete instances used by witnesses and counterexamples -/

/-- A file system with no readable files. -/
def fsEmpty : String → Option (List String) := fun _ => none

/-- Same-repository configuration with budget `maxLen`. -/
def cfgSame (maxLen : Nat) : Cfg :=
  { fs := fsEmpty, excludedDir := fun _ => false, repoName := "r",
    targetRepoName := "r", sha := "s", commentMax := maxLen }

/-- Cross-repository (fork) configuration with budget `maxLen`. -/
def cfgCross (maxLen : Nat) : Cfg :=
  { fs := fsEmpty, excludedDir := fun _ => false, repoName := "r",
    targetRepoName := "t", sha := "s", commentMax := maxLen }

/-- A one-file changed-files mapping covering line 1 of `a.cc`. -/
def fcpA : FCP := [("a.cc", [(1, 1)])]

/-- A file system holding one file `a.cc` whose single line is a balanced
statement (no open brackets), so the end-line heuristic returns
`lineEnd = lineStart` for it. -/
def fsBalanced : String → Option (List String) :=
  fun p => if p = "a.cc" then some ["int a;\n"] else none

/-- Cross-repository (fork) configuration over `fsBalanced` with budget
`maxLen`. -/
def cfgCrossFs (maxLen : Nat) : Cfg :=
  { fs := fsBalanced, excludedDir := fun _ => false, repoName := "r",
    targetRepoName := "t", sha := "s", commentMax := maxLen }

/-- The census of claim C2: lines that match the tool prefix, are not in an
excluded directory, parse as a non-note diagnostic and pass the range filter
(console mode bypasses the filter). -/
def nonNoteKept (cfg : Cfg) (fcp : FCP) (output_to_console : Bool)
    (pref : String) (line : String) : Bool :=
  pyStartsWith line pref && !cfg.excludedDir line &&
    (match extract_info cfg line pref with
     | some (file_path, is_note, file_line_start, _, _) =>
       !is_note &&
         (output_to_console || is_part_of_pr_changes file_path file_line_start fcp)
     | none => false)

/-- Total character length of a list of finalized entries. -/
def entriesLen (l : List String) : Nat :=
  (l.map String.length).sum

/-- Weight of an in-flight pending entry: `1` when nonempty, else `0`.
Used by the entry-count bound. -/
def pendWeight (p : String) : Nat :=
  if p.length = 0 then 0 else 1

/-- A cache is consistent with the file system when every cached entry
holds exactly the lines of the file.  Every cache the code builds has this
shape, because entries are only ever loaded from the file system. -/
def Consistent (fs : String → Option (List String)) (c : Cache) : Prop :=
  ∀ p ls, cacheLookup c p = some ls → fs p = some ls

/-- Two loop states that agree on everything except (possibly) the file
cache.  The cache only feeds the renderer through consistent lookups, so
agreement is preserved by the loop. -/
def Agree (s t : AggState) : Prop :=
  s.counter = t.counter ∧ s.issues = t.issues ∧ s.pending = t.pending ∧
    s.was_note = t.was_note ∧ s.exceeded = t.exceeded ∧ s.error = t.error

/-! ### Basic lemmas about the loop -/

theorem step_frozen (cfg : Cfg) (fcp : FCP) (otc : Bool) (pref : String)
    (s : AggState) (l : String) (h : (s.error.isSome || s.exceeded) = true) :
    step cfg fcp otc pref s l = s := by
  simp only [step, h]
  rfl

theorem runLines_nil (cfg : Cfg) (fcp : FCP) (otc : Bool) (pref : String)
    (s : AggState) : runLines cfg fcp otc pref s [] = s := rfl

theorem runLines_cons (cfg : Cfg) (fcp : FCP) (otc : Bool) (pref : String)
    (s : AggState) (l : String) (ls : List String) :
    runLines cfg fcp otc pref s (l :: ls) =
      runLines cfg fcp otc pref (step cfg fcp otc pref s l) ls := rfl

theorem runLines_append (cfg : Cfg) (fcp : FCP) (otc : Bool) (pref : String)
    (s : AggState) (l1 l2 : List String) :
    runLines cfg fcp otc pref s (l1 ++ l2) =
      runLines cfg fcp otc pref (runLines cfg fcp otc pref s l1) l2 :=
  List.foldl_append _ _ _ _

theorem runLines_frozen (cfg : Cfg) (fcp : FCP) (otc : Bool) (pref : String)
    (s : AggState) (ls : List String)
    (h : (s.error.isSome || s.exceeded) = true) :
    runLines cfg fcp otc pref s ls = s := by
  induction ls with
  | nil => rfl
  | cons l ls ih => rw [runLines_cons, step_frozen cfg fcp otc pref s l h, ih]

theorem step_nomatch (cfg : Cfg) (fcp : FCP) (otc : Bool) (pref : String)
    (s : AggState) (l : String)
    (herr : s.error = none) (hexc : s.exceeded = false)
    (h : (pyStartsWith l pref && !cfg.excludedDir l) = false) :
    step cfg fcp otc pref s l = s := by
  simp only [step, herr, hexc, Option.isSome_none, Bool.or_self,
    Bool.false_eq_true, if_false, h]

theorem step_parse_error (cfg : Cfg) (fcp : FCP) (otc : Bool) (pref : String)
    (s : AggState) (l : String)
    (herr : s.error = none) (hexc : s.exceeded = false)
    (hstart : (pyStartsWith l pref && !cfg.excludedDir l) = true)
    (hinfo : extract_info cfg l pref = none) :
    step cfg fcp otc pref s l = { s with error := some PyErr.valueError } := by
  simp only [step, herr, hexc, Option.isSome_none, Bool.or_self,
    Bool.false_eq_true, if_false, hstart, if_true, hinfo]

theorem step_console (cfg : Cfg) (fcp : FCP) (pref : String)
    (s : AggState) (l file_path : String) (is_note : Bool) (ls le : Nat)
    (desc : String)
    (herr : s.error = none) (hexc : s.exceeded = false)
    (hstart : (pyStartsWith l pref && !cfg.excludedDir l) = true)
    (hinfo : extract_info cfg l pref = some (file_path, is_note, ls, le, desc)) :
    step cfg fcp true pref s l =
      { s with pending := (append_issue is_note s.pending l s.issues).1,
               issues := (append_issue is_note s.pending l s.issues).2 } := by
  simp only [step, herr, hexc, Option.isSome_none, Bool.or_self,
    Bool.false_eq_true, if_false, hstart, if_true, hinfo]

theorem step_filtered (cfg : Cfg) (fcp : FCP) (pref : String)
    (s : AggState) (l file_path : String) (is_note : Bool) (ls le : Nat)
    (desc : String)
    (herr : s.error = none) (hexc : s.exceeded = false)
    (hstart : (pyStartsWith l pref && !cfg.excludedDir l) = true)
    (hinfo : extract_info cfg l pref = some (file_path, is_note, ls, le, desc))
    (hpr : is_part_of_pr_changes file_path ls fcp = false) :
    step cfg fcp false pref s l = s := by
  simp only [step, herr, hexc, Option.isSome_none, Bool.or_self,
    Bool.false_eq_true, if_false, hstart, if_true, hinfo, hpr]

theorem step_goerr (cfg : Cfg) (fcp : FCP) (pref : String)
    (s : AggState) (l file_path : String) (is_note : Bool) (ls le : Nat)
    (desc : String) (cache2 : Cache) (e : PyErr)
    (herr : s.error = none) (hexc : s.exceeded = false)
    (hstart : (pyStartsWith l pref && !cfg.excludedDir l) = true)
    (hinfo : extract_info cfg l pref = some (file_path, is_note, ls, le, desc))
    (hrange : is_part_of_pr_changes file_path ls fcp = true)
    (hgen : generate_output cfg s.cache is_note file_path ls le desc =
      (cache2, Except.error e)) :
    step cfg fcp false pref s l =
      { s with was_note := is_note, cache := cache2, error := some e } := by
  simp only [step, herr, hexc, Option.isSome_none, Bool.or_self,
    Bool.false_eq_true, if_false, hstart, if_true, hinfo,
    generate_description, hgen, hrange]

theorem step_breach (cfg : Cfg) (fcp : FCP) (pref : String) (s : AggState)
    (l file_path : String) (is_note : Bool) (ls le : Nat) (desc : String)
    (cache2 : Cache) (new_line : String)
    (herr : s.error = none) (hexc : s.exceeded = false)
    (hpref : pyStartsWith l pref = true) (hexcl : cfg.excludedDir l = false)
    (hinfo : extract_info cfg l pref = some (file_path, is_note, ls, le, desc))
    (hrange : is_part_of_pr_changes file_path ls fcp = true)
    (hgen : generate_output cfg s.cache is_note file_path ls le desc =
      (cache2, Except.ok new_line))
    (hlim : check_for_char_limit cfg.commentMax s.counter new_line = false) :
    step cfg fcp false pref s l =
      { s with cache := cache2, was_note := is_note,
               counter := cfg.commentMax, exceeded := true } := by
  simp only [step, herr, hexc, Option.isSome_none, Bool.or_self, Bool.false_eq_true,
    if_false, hpref, hexcl, Bool.not_false, Bool.and_self, if_true, hinfo,
    generate_description, hgen, hrange, hlim, Bool.false_eq_true]

/-- C1: when appending the next rendered line would reach or exceed the
configured maximum comment length, `create_comment_for_output` stops
aggregating immediately, discards the in-flight pending entry without
flushing it, sets the running counter to the maximum, and returns only the
already finalized entries together with their count. -/
theorem c1_budget_breach_stops_run (cfg : Cfg) (fcp : FCP) (pref : String)
    (pre post : List String) (g : Globals) (s : AggState)
    (l file_path : String) (is_note : Bool) (ls le : Nat) (desc : String)
    (cache2 : Cache) (new_line : String)
    (hs : runLines cfg fcp false pref (initState g) pre = s)
    (herr : s.error = none) (hexc : s.exceeded = false)
    (hpref : pyStartsWith l pref = true) (hexcl : cfg.excludedDir l = false)
    (hinfo : extract_info cfg l pref = some (file_path, is_note, ls, le, desc))
    (hrange : is_part_of_pr_changes file_path ls fcp = true)
    (hgen : generate_output cfg s.cache is_note file_path ls le desc =
      (cache2, Except.ok new_line))
    (hlim : cfg.commentMax ≤ s.counter + new_line.length) :
    create_comment_for_output cfg (pre ++ l :: post) pref fcp false g =
      (Except.ok (String.intercalate "\n" s.issues, s.issues.length),
       { cache := cache2, counter := cfg.commentMax }) := by
  have hlim2 : check_for_char_limit cfg.commentMax s.counter new_line = false := by
    simp only [check_for_char_limit, decide_eq_false_iff_not, Nat.not_lt]
    exact hlim
  have hstep := step_breach cfg fcp pref s l file_path is_note ls le desc cache2
    new_line herr hexc hpref hexcl hinfo hrange hgen hlim2
  rw [create_comment_for_output, runLines_append, hs, runLines_cons, hstep,
    runLines_frozen]
  · simp only [finishRun, herr, finalIssues, if_true]
  · simp

/-- Witness for C1 at a concrete breaching input. -/
theorem c1_budget_breach_stops_run_witness :
    create_comment_for_output (cfgSame 5) ["wa.cc:1:1: x"] "w" fcpA false
      { cache := [], counter := 0 } =
      (Except.ok ("", 0), { cache := [], counter := 5 }) := by
  have h := c1_budget_breach_stops_run (cfgSame 5) fcpA "w" [] []
    { cache := [], counter := 0 } (initState { cache := [], counter := 0 })
    "wa.cc:1:1: x" "a.cc" false 1 1 "x" []
    "\n\nhttps://github.com/r/blob/s/a.cc#L1-L1 x <br>\n"
    rfl rfl rfl (by decide) rfl (by decide) rfl rfl (by decide)
  simpa using h

/-- C3: the claim says a missing source file is non-fatal.  In the code,
`get_file_line_end` (modelled from the spec) does degrade to
`lineEnd = lineStart`, but `generate_output` catches the failed open, prints
the warning and then immediately raises an uncaught `KeyError` on the cache
subscript `FILES_WITH_ISSUES[file_path]`, aborting the whole run. -/
theorem c3_missing_file_key_error :
    get_file_line_end fsEmpty "x.cc" 1 = 1 ∧
    generate_output (cfgCross 1000) [] false "x.cc" 1 1 "d" =
      ([], Except.error PyErr.keyError) ∧
    create_comment_for_output (cfgCross 1000) ["wx.cc:1:1: d"] "w" [] false
      { cache := [], counter := 0 } =
      (Except.error PyErr.keyError, { cache := [], counter := 0 }) :=
  ⟨rfl, rfl, rfl⟩

/-- C8: the claim says only the leading occurrence of the prefix is stripped
and the description is otherwise unmodified.  `extract_info` uses Python
`str.replace`, which deletes every occurrence of the prefix, so a prefix
occurring inside the description is deleted there too: the description comes
back as `"w: see /a.cc"` instead of the claimed `"w: see /w/a.cc"`. -/
theorem c8_replace_strips_description_too :
    extract_info (cfgSame 100) "/w/a.cc:1:1: w: see /w/a.cc" "/w" =
      some ("a.cc", false, 1, 1, "w: see /a.cc") := rfl

/-- C2 counterexample: a stream consisting of one orphan note line is
finalized into one entry at end-of-run flush, yet it contains zero non-note
non-skipped lines, so the claimed bound `count ≤ nonNote` fails. -/
theorem c2_count_counterexample :
    create_comment_for_output (cfgSame 1000) ["wa.cc:1:1: note: x"] "w" []
      false { cache := [], counter := 0 } =
      (Except.ok ("note: x", 1), { cache := [], counter := 7 }) ∧
    List.countP (nonNoteKept (cfgSame 1000) [] false "w")
      ["wa.cc:1:1: note: x"] = 0 ∧
    ¬ (1 : Nat) ≤ 0 :=
  ⟨rfl, rfl, by decide⟩

/-- C6 counterexample: with zero issues for both tools but the counter equal
to the maximum (a run whose very first rendered line already breached the
budget), `prepare_comment_body` appends the truncation notice after the
"no issues" banner, so the output is not exactly the banner. -/
theorem c6_counterexample :
    prepare_comment_body "T" "N" "" "" 0 0 5 5 ≠
      "## <p align=\"center\"><b> :white_check_mark:" ++ "T" ++
        " - no issues found! :white_check_mark: </b></p>" := by
  decide

/-- C9 counterexample: the running character counter is a global threaded
between runs, so running the aggregation twice on the same stream and the
same non-empty mapping gives different outputs: the first run finalizes the
entry (counter 48 of budget 50), the second immediately breaches the budget
and returns no entries. -/
theorem c9_counterexample :
    create_comment_for_output (cfgSame 50) ["wa.cc:1:1: x"] "w" fcpA false
      { cache := [], counter := 0 } =
      (Except.ok ("\n\nhttps://github.com/r/blob/s/a.cc#L1-L1 x <br>\n", 1),
       { cache := [], counter := 48 }) ∧
    create_comment_for_output (cfgSame 50) ["wa.cc:1:1: x"] "w" fcpA false
      { cache := [], counter := 48 } =
      (Except.ok ("", 0), { cache := [], counter := 50 }) ∧
    ¬ ((("" : String), (0 : Nat)) =
       ("\n\nhttps://github.com/r/blob/s/a.cc#L1-L1 x <br>\n", (1 : Nat))) :=
  ⟨rfl, rfl, by decide⟩

theorem step_pass (cfg : Cfg) (fcp : FCP) (pref : String) (s : AggState)
    (l file_path : String) (is_note : Bool) (ls le : Nat) (desc : String)
    (cache2 : Cache) (new_line : String)
    (herr : s.error = none) (hexc : s.exceeded = false)
    (hpref : pyStartsWith l pref = true) (hexcl : cfg.excludedDir l = false)
    (hinfo : extract_info cfg l pref = some (file_path, is_note, ls, le, desc))
    (hrange : is_part_of_pr_changes file_path ls fcp = true)
    (hgen : generate_output cfg s.cache is_note file_path ls le desc =
      (cache2, Except.ok new_line))
    (hlim : check_for_char_limit cfg.commentMax s.counter new_line = true) :
    step cfg fcp false pref s l =
      { s with cache := cache2, was_note := is_note,
               pending := (append_issue is_note s.pending new_line s.issues).1,
               issues := (append_issue is_note s.pending new_line s.issues).2,
               counter := s.counter + new_line.length } := by
  simp only [step, herr, hexc, Option.isSome_none, Bool.or_self, Bool.false_eq_true,
    if_false, hpref, hexcl, Bool.not_false, Bool.and_self, if_true, hinfo,
    generate_description, hgen, hrange, hlim]

/-- C10: whenever a rendered line passes the budget check, its length is
added to the running counter — also when the entry it finalizes is dropped
as an exact duplicate, which therefore consumes budget while never
appearing in the output. -/
theorem c10_duplicate_consumes_budget (cfg : Cfg) (fcp : FCP) (pref : String)
    (s : AggState) (l file_path : String) (is_note : Bool) (ls le : Nat)
    (desc : String) (cache2 : Cache) (new_line : String)
    (herr : s.error = none) (hexc : s.exceeded = false)
    (hpref : pyStartsWith l pref = true) (hexcl : cfg.excludedDir l = false)
    (hinfo : extract_info cfg l pref = some (file_path, is_note, ls, le, desc))
    (hrange : is_part_of_pr_changes file_path ls fcp = true)
    (hgen : generate_output cfg s.cache is_note file_path ls le desc =
      (cache2, Except.ok new_line))
    (hlim : check_for_char_limit cfg.commentMax s.counter new_line = true) :
    (step cfg fcp false pref s l).counter = s.counter + new_line.length ∧
    (is_note = false → s.pending ∈ s.issues →
      (step cfg fcp false pref s l).issues = s.issues) := by
  rw [step_pass cfg fcp pref s l file_path is_note ls le desc cache2 new_line
    herr hexc hpref hexcl hinfo hrange hgen hlim]
  refine ⟨rfl, fun hn hmem => ?_⟩
  subst hn
  simp [append_issue, hmem]

/-- Witness for C10: the duplicate pending entry `"D"` is dropped while the
counter still grows by the full length of the rendered line. -/
theorem c10_duplicate_consumes_budget_witness :
    (step (cfgSame 1000) fcpA false "w"
        { cache := [], counter := 0, issues := ["D"], pending := "D",
          was_note := false, exceeded := false, error := none }
        "wa.cc:1:1: x").counter = 48 ∧
    (step (cfgSame 1000) fcpA false "w"
        { cache := [], counter := 0, issues := ["D"], pending := "D",
          was_note := false, exceeded := false, error := none }
        "wa.cc:1:1: x").issues = ["D"] := by
  have h := c10_duplicate_consumes_budget (cfgSame 1000) fcpA "w"
    { cache := [], counter := 0, issues := ["D"], pending := "D",
      was_note := false, exceeded := false, error := none }
    "wa.cc:1:1: x" "a.cc" false 1 1 "x" []
    "\n\nhttps://github.com/r/blob/s/a.cc#L1-L1 x <br>\n"
    rfl rfl (by decide) rfl rfl (by decide) rfl (by decide)
  exact ⟨by simpa using h.1, h.2 rfl (by decide)⟩

theorem pySlice_drop_take {α : Type} (l : List α) (ls le : Nat)
    (h1 : 1 ≤ ls) (h2 : ls < le) (h3 : le - 1 ≤ l.length) :
    pySlice l ((ls : Int) - 1) ((le : Int) - 1) =
      (l.drop (ls - 1)).take (le - ls) := by
  unfold pySlice pySliceNorm
  have ha : ¬ ((ls : Int) - 1 < 0) := by omega
  have hb : ¬ ((le : Int) - 1 < 0) := by omega
  rw [if_neg ha, if_neg hb]
  have h4 : ((ls : Int) - 1).toNat = ls - 1 := by omega
  have h5 : ((le : Int) - 1).toNat = le - 1 := by omega
  rw [h4, h5]
  have h6 : min (le - 1) l.length = le - 1 := by omega
  have h7 : min (ls - 1) l.length = ls - 1 := by omega
  rw [h6, h7, List.drop_take]
  congr 1
  omega

theorem cacheLookup_insert_self (c : Cache) (k : String) (v : List String)
    (h : cacheLookup c k = none) :
    cacheLookup (cacheInsert c k v) k = some v := by
  induction c with
  | nil => simp [cacheInsert, cacheLookup]
  | cons p rest ih =>
    obtain ⟨k1, v1⟩ := p
    by_cases hk : k1 = k
    · simp [cacheLookup, hk] at h
    · simp only [cacheInsert, cacheLookup, List.cons_append, if_neg hk] at h ⊢
      exact ih h

/-- C4 counterexample: the claim quantifies over every cross-repository
non-note diagnostic, but when `lineEnd = lineStart` — the default the
end-line heuristic produces for a balanced single-line statement — the
slice `[lineStart, lineEnd)` is empty and `generate_output` raises an
uncaught `IndexError` at `modified_content[0]` instead of rendering any
excerpt; the error aborts the whole run. -/
theorem c4_empty_excerpt_index_error :
    get_file_line_end fsBalanced "a.cc" 1 = 1 ∧
    generate_output (cfgCrossFs 1000) [("a.cc", ["int a;\n"])] false
      "a.cc" 1 1 "d" =
      ([("a.cc", ["int a;\n"])], Except.error PyErr.indexError) ∧
    create_comment_for_output (cfgCrossFs 1000) ["wa.cc:1:1: d"] "w" [] false
      { cache := [], counter := 0 } =
      (Except.error PyErr.indexError,
       { cache := [("a.cc", ["int a;\n"])], counter := 0 }) :=
  ⟨rfl, rfl, rfl⟩

/-- C4 amended: for a non-note diagnostic from a differing repository whose
lines are available (already cached, or loadable — loaded at most once: the
cache grows only on a miss and is reused afterwards) and whose excerpt
range `[lineStart, lineEnd)` is non-empty, `generate_output` renders a
fenced excerpt of exactly those lines of the cached content, with the
trailing marker appended to the end of the first excerpted line only — the
line at `lineStart`; when the range is empty (`lineEnd = lineStart`) the
code instead raises an uncaught `IndexError`. -/
theorem c4_cross_repo_excerpt (cfg : Cfg) (cache : Cache)
    (file_path : String) (ls le : Nat) (desc : String)
    (lines : List String) (first : String) (rest : List String)
    (hrepo : cfg.targetRepoName ≠ cfg.repoName)
    (hav : cacheLookup cache file_path = some lines ∨
      (cacheLookup cache file_path = none ∧ cfg.fs file_path = some lines))
    (h1 : 1 ≤ ls) (h2 : ls < le) (h3 : le - 1 ≤ lines.length)
    (hex : (lines.drop (ls - 1)).take (le - ls) = first :: rest) :
    generate_output cfg cache false file_path ls le desc =
      ((if (cacheLookup cache file_path).isSome then cache
        else cacheInsert cache file_path lines),
       Except.ok ("\n\n------" ++
         "\n\n <b><i>Issue found in file</b></i> [" ++ cfg.repoName ++ "/" ++
         file_path ++ "](" ++
         ("https://github.com/" ++ cfg.repoName ++ "/blob/" ++ cfg.sha ++ "/" ++
           file_path ++ "#L" ++ toString ls) ++ ")\n" ++
         "```cpp\n" ++
         String.join ((pyDropLast first ++ " <---- HERE\n") :: rest) ++
         "\n``` \n" ++ desc ++ " <br>\n")) := by
  have hslice := pySlice_drop_take lines ls le h1 h2 h3
  rcases hav with hcached | ⟨hmiss, hfs⟩
  · simp only [generate_output, if_neg (by simp : ¬ (!false) = false),
      if_pos hrepo, hcached, Option.isSome_some, if_true]
    rw [hslice, hex]
    simp
  · have hins := cacheLookup_insert_self cache file_path lines hmiss
    simp only [generate_output, if_pos hrepo, hmiss, hfs, hins,
      Option.isSome_none, Bool.false_eq_true, if_false]
    rw [hslice, hex]
    simp

/-- Witness for C4: a two-line excerpt from a one-entry cache; the marker
lands at the end of line 1 only. -/
theorem c4_cross_repo_excerpt_witness :
    generate_output (cfgCross 1000) [("a.cc", ["l1\n", "l2\n", "l3\n"])] false
      "a.cc" 1 3 "d" =
      ([("a.cc", ["l1\n", "l2\n", "l3\n"])],
       Except.ok ("\n\n------" ++
         "\n\n <b><i>Issue found in file</b></i> [" ++ "r" ++ "/" ++
         "a.cc" ++ "](" ++
         ("https://github.com/" ++ "r" ++ "/blob/" ++ "s" ++ "/" ++
           "a.cc" ++ "#L" ++ toString 1) ++ ")\n" ++
         "```cpp\n" ++
         String.join ((pyDropLast "l1\n" ++ " <---- HERE\n") :: ["l2\n"]) ++
         "\n``` \n" ++ "d" ++ " <br>\n")) := by
  have h := c4_cross_repo_excerpt (cfgCross 1000)
    [("a.cc", ["l1\n", "l2\n", "l3\n"])] "a.cc" 1 3 "d"
    ["l1\n", "l2\n", "l3\n"] "l1\n" ["l2\n"]
    (by decide) (Or.inl rfl) (by decide) (by decide) (by decide) rfl
  simpa using h

theorem append_issue_snd_extend (b : Bool) (p nl : String) (L : List String) :
    L <+: (append_issue b p nl L).2 := by
  unfold append_issue
  cases b with
  | true => exact List.prefix_rfl
  | false =>
    simp only [Bool.not_false, if_true]
    split
    · exact List.prefix_append L [p]
    · exact List.prefix_rfl

theorem append_issue_snd_nodup (b : Bool) (p nl : String) (L : List String)
    (h : L.Nodup) : (append_issue b p nl L).2.Nodup := by
  unfold append_issue
  cases b with
  | true => exact h
  | false =>
    simp only [Bool.not_false, if_true]
    split
    · next hc => simp [List.nodup_append, h, hc.2]
    · exact h

theorem step_issues_extend (cfg : Cfg) (fcp : FCP) (otc : Bool) (pref : String)
    (s : AggState) (l : String) :
    s.issues <+: (step cfg fcp otc pref s l).issues := by
  unfold step
  repeat' (first | split | dsimp only)
  all_goals first
    | exact List.prefix_rfl
    | exact append_issue_snd_extend _ _ _ _

theorem step_issues_nodup (cfg : Cfg) (fcp : FCP) (otc : Bool) (pref : String)
    (s : AggState) (l : String) (h : s.issues.Nodup) :
    (step cfg fcp otc pref s l).issues.Nodup := by
  unfold step
  repeat' (first | split | dsimp only)
  all_goals first
    | exact h
    | exact append_issue_snd_nodup _ _ _ _ h

theorem runLines_issues_extend (cfg : Cfg) (fcp : FCP) (otc : Bool)
    (pref : String) (s : AggState) (ls : List String) :
    s.issues <+: (runLines cfg fcp otc pref s ls).issues := by
  induction ls generalizing s with
  | nil => exact List.prefix_rfl
  | cons l ls ih =>
    rw [runLines_cons]
    exact (step_issues_extend cfg fcp otc pref s l).trans (ih _)

theorem runLines_issues_nodup (cfg : Cfg) (fcp : FCP) (otc : Bool)
    (pref : String) (s : AggState) (ls : List String) (h : s.issues.Nodup) :
    (runLines cfg fcp otc pref s ls).issues.Nodup := by
  induction ls generalizing s with
  | nil => exact h
  | cons l ls ih =>
    rw [runLines_cons]
    exact ih _ (step_issues_nodup cfg fcp otc pref s l h)

theorem finalIssues_extend (s : AggState) : s.issues <+: finalIssues s := by
  unfold finalIssues flushIssues
  repeat' split
  all_goals first
    | exact List.prefix_rfl
    | exact List.prefix_append s.issues [s.pending]

theorem finalIssues_nodup (s : AggState) (h : s.issues.Nodup) :
    (finalIssues s).Nodup := by
  unfold finalIssues flushIssues
  repeat' split
  all_goals first
    | exact h
    | next hc => simp [List.nodup_append, h, hc.2]

/-- C5: the output entry list of a run never contains two equal entries — a
later issue whose finalized text equals an earlier finalized entry is
dropped silently, by the membership test both at intermediate finalization
(`append_issue`) and at the end-of-run flush — and entries already
finalized after any prefix of the stream survive (as a prefix of the final
list), so exactly one copy of a duplicated entry text remains. -/
theorem c5_dedup_exactly_one_copy (cfg : Cfg) (fcp : FCP) (otc : Bool)
    (pref : String) (g : Globals) (pre suf : List String) :
    (runLines cfg fcp otc pref (initState g) pre).issues <+:
      finalIssues (runLines cfg fcp otc pref (initState g) (pre ++ suf)) ∧
    (finalIssues (runLines cfg fcp otc pref (initState g) (pre ++ suf))).Nodup := by
  rw [runLines_append]
  constructor
  · exact (runLines_issues_extend cfg fcp otc pref _ suf).trans
      (finalIssues_extend _)
  · exact finalIssues_nodup _
      (runLines_issues_nodup cfg fcp otc pref _ suf
        (runLines_issues_nodup cfg fcp otc pref _ pre List.nodup_nil))

theorem append_issue_snd_len (b : Bool) (p nl : String) (L : List String) :
    (append_issue b p nl L).2.length ≤ L.length + pendWeight p := by
  unfold append_issue pendWeight
  cases b with
  | true => simp
  | false =>
    simp only [Bool.not_false, if_true]
    split
    · next hc =>
      have hp : p.length ≠ 0 := by omega
      simp [hp]
    · simp

theorem pendWeight_le_one (p : String) : pendWeight p ≤ 1 := by
  unfold pendWeight
  split <;> omega

theorem finalIssues_len (s : AggState) :
    (finalIssues s).length ≤ s.issues.length + pendWeight s.pending := by
  unfold finalIssues flushIssues pendWeight
  split
  · exact Nat.le_add_right _ _
  · split
    · next hc =>
      have hp : ¬ s.pending.length = 0 := by omega
      simp [hp]
    · exact Nat.le_add_right _ _

theorem step_count_bound (cfg : Cfg) (fcp : FCP) (otc : Bool) (pref : String)
    (s : AggState) (l : String) (n : Nat)
    (h1 : s.issues.length ≤ n)
    (h2 : s.issues.length + pendWeight s.pending ≤ n + 1) :
    (step cfg fcp otc pref s l).issues.length ≤
      n + (if nonNoteKept cfg fcp otc pref l then 1 else 0) ∧
    (step cfg fcp otc pref s l).issues.length +
        pendWeight (step cfg fcp otc pref s l).pending ≤
      n + (if nonNoteKept cfg fcp otc pref l then 1 else 0) + 1 := by
  by_cases hfr : (s.error.isSome || s.exceeded) = true
  · rw [step_frozen cfg fcp otc pref s l hfr]
    omega
  · have herr : s.error = none := by
      cases h : s.error <;> simp [h] at hfr ⊢
    have hexc : s.exceeded = false := by
      cases h : s.exceeded <;> simp [h] at hfr ⊢
    by_cases hstart : (pyStartsWith l pref && !cfg.excludedDir l) = true
    · cases hinfo : extract_info cfg l pref with
      | none =>
        rw [step_parse_error cfg fcp otc pref s l herr hexc hstart hinfo]
        dsimp only
        omega
      | some info =>
        obtain ⟨fp, b, ls0, le0, d⟩ := info
        cases otc with
        | true =>
          rw [step_console cfg fcp pref s l fp b ls0 le0 d herr hexc hstart hinfo]
          dsimp only
          cases b with
          | true =>
            have hA : (append_issue true s.pending l s.issues).2 = s.issues := by
              simp [append_issue]
            have hw := pendWeight_le_one (append_issue true s.pending l s.issues).1
            rw [hA]
            omega
          | false =>
            have hkept : nonNoteKept cfg fcp true pref l = true := by
              simp [nonNoteKept, hstart, hinfo]
            have hlen := append_issue_snd_len false s.pending l s.issues
            have hw := pendWeight_le_one (append_issue false s.pending l s.issues).1
            simp only [hkept, if_true]
            omega
        | false =>
          by_cases hpr : is_part_of_pr_changes fp ls0 fcp = true
          · rcases hgo : generate_output cfg s.cache b fp ls0 le0 d with ⟨c2, r⟩
            cases r with
            | error e =>
              rw [step_goerr cfg fcp pref s l fp b ls0 le0 d c2 e herr hexc
                hstart hinfo hpr hgo]
              dsimp only
              omega
            | ok nl =>
              by_cases hlim : check_for_char_limit cfg.commentMax s.counter nl = true
              · have hparts : pyStartsWith l pref = true ∧
                    (!cfg.excludedDir l) = true := by
                  simpa [Bool.and_eq_true] using hstart
                rw [step_pass cfg fcp pref s l fp b ls0 le0 d c2 nl herr hexc
                  hparts.1 (by simpa using hparts.2) hinfo hpr hgo hlim]
                dsimp only
                cases b with
                | true =>
                  have hA : (append_issue true s.pending nl s.issues).2 = s.issues := by
                    simp [append_issue]
                  have hw := pendWeight_le_one (append_issue true s.pending nl s.issues).1
                  rw [hA]
                  omega
                | false =>
                  have hkept : nonNoteKept cfg fcp false pref l = true := by
                    simp [nonNoteKept, hstart, hinfo, hpr]
                  have hlen := append_issue_snd_len false s.pending nl s.issues
                  have hw := pendWeight_le_one (append_issue false s.pending nl s.issues).1
                  simp only [hkept, if_true]
                  omega
              · rw [Bool.not_eq_true] at hlim
                have hparts : pyStartsWith l pref = true ∧
                    (!cfg.excludedDir l) = true := by
                  simpa [Bool.and_eq_true] using hstart
                rw [step_breach cfg fcp pref s l fp b ls0 le0 d c2 nl herr hexc
                  hparts.1 (by simpa using hparts.2) hinfo hpr hgo hlim]
                dsimp only
                omega
          · rw [Bool.not_eq_true] at hpr
            rw [step_filtered cfg fcp pref s l fp b ls0 le0 d herr hexc hstart
              hinfo hpr]
            omega
    · rw [Bool.not_eq_true] at hstart
      rw [step_nomatch cfg fcp otc pref s l herr hexc hstart]
      omega

theorem runLines_count_bound (cfg : Cfg) (fcp : FCP) (otc : Bool)
    (pref : String) (ls : List String) (s : AggState) (n : Nat)
    (h1 : s.issues.length ≤ n)
    (h2 : s.issues.length + pendWeight s.pending ≤ n + 1) :
    (runLines cfg fcp otc pref s ls).issues.length ≤
      n + ls.countP (nonNoteKept cfg fcp otc pref) ∧
    (runLines cfg fcp otc pref s ls).issues.length +
        pendWeight (runLines cfg fcp otc pref s ls).pending ≤
      n + ls.countP (nonNoteKept cfg fcp otc pref) + 1 := by
  induction ls generalizing s n with
  | nil => simpa using ⟨h1, h2⟩
  | cons l ls ih =>
    rw [runLines_cons]
    have hstep := step_count_bound cfg fcp otc pref s l n h1 h2
    have hrec := ih (step cfg fcp otc pref s l)
      (n + (if nonNoteKept cfg fcp otc pref l then 1 else 0)) hstep.1 hstep.2
    rw [List.countP_cons]
    omega

/-- C2 amended: the number of finalized entries a run returns is at most the
number of non-note kept lines plus one — the extra entry comes from a group
of orphan leading notes, which is finalized although no non-note line
produced it. -/
theorem c2_entry_count_bound (cfg : Cfg) (tool_output : List String)
    (pref : String) (fcp : FCP) (otc : Bool) (g : Globals)
    (out : String) (cnt : Nat) (g2 : Globals)
    (h : create_comment_for_output cfg tool_output pref fcp otc g =
      (Except.ok (out, cnt), g2)) :
    cnt ≤ tool_output.countP (nonNoteKept cfg fcp otc pref) + 1 := by
  have hb := runLines_count_bound cfg fcp otc pref tool_output (initState g) 0
    (by simp [initState]) (by simp [initState, pendWeight])
  unfold create_comment_for_output finishRun at h
  cases herr : (runLines cfg fcp otc pref (initState g) tool_output).error with
  | some e =>
    rw [herr] at h
    simp at h
  | none =>
    rw [herr] at h
    simp only [Prod.mk.injEq, Except.ok.injEq] at h
    have hcnt : cnt =
        (finalIssues (runLines cfg fcp otc pref (initState g) tool_output)).length :=
      (h.1.2).symm
    have hf := finalIssues_len (runLines cfg fcp otc pref (initState g) tool_output)
    omega

/-- Witness for C2 amended at a concrete one-issue stream. -/
theorem c2_entry_count_bound_witness :
    (1 : Nat) ≤ List.countP (nonNoteKept (cfgSame 1000) fcpA false "w")
      ["wa.cc:1:1: x"] + 1 :=
  c2_entry_count_bound (cfgSame 1000) ["wa.cc:1:1: x"] "w" fcpA false
    { cache := [], counter := 0 }
    "\n\nhttps://github.com/r/blob/s/a.cc#L1-L1 x <br>\n" 1
    { cache := [], counter := 48 } rfl

theorem entriesLen_append (L M : List String) :
    entriesLen (L ++ M) = entriesLen L + entriesLen M := by
  simp [entriesLen, List.map_append, List.sum_append]

theorem entriesLen_mono (p L : List String) (h : p <+: L) :
    entriesLen p ≤ entriesLen L := by
  obtain ⟨t, rfl⟩ := h
  rw [entriesLen_append]
  exact Nat.le_add_right _ _

theorem append_issue_budget (b : Bool) (p nl : String) (L : List String) :
    entriesLen (append_issue b p nl L).2 + (append_issue b p nl L).1.length ≤
      entriesLen L + p.length + nl.length := by
  unfold append_issue
  cases b with
  | true => simp [String.length_append]; omega
  | false =>
    simp only [Bool.not_false, if_true]
    split
    · simp [entriesLen_append, entriesLen]
    · simp

theorem finalIssues_entriesLen (s : AggState) :
    entriesLen (finalIssues s) ≤ entriesLen s.issues + s.pending.length := by
  unfold finalIssues flushIssues
  split
  · exact Nat.le_add_right _ _
  · split
    · simp [entriesLen_append, entriesLen]
    · exact Nat.le_add_right _ _

theorem step_counter_mono (cfg : Cfg) (fcp : FCP) (otc : Bool) (pref : String)
    (s : AggState) (l : String) (h : s.counter ≤ cfg.commentMax) :
    s.counter ≤ (step cfg fcp otc pref s l).counter ∧
      (step cfg fcp otc pref s l).counter ≤ cfg.commentMax := by
  by_cases hfr : (s.error.isSome || s.exceeded) = true
  · rw [step_frozen cfg fcp otc pref s l hfr]
    omega
  · have herr : s.error = none := by
      cases hx : s.error <;> simp [hx] at hfr ⊢
    have hexc : s.exceeded = false := by
      cases hx : s.exceeded <;> simp [hx] at hfr ⊢
    by_cases hstart : (pyStartsWith l pref && !cfg.excludedDir l) = true
    · cases hinfo : extract_info cfg l pref with
      | none =>
        rw [step_parse_error cfg fcp otc pref s l herr hexc hstart hinfo]
        exact ⟨le_refl _, h⟩
      | some info =>
        obtain ⟨fp, b, ls0, le0, d⟩ := info
        cases otc with
        | true =>
          rw [step_console cfg fcp pref s l fp b ls0 le0 d herr hexc hstart hinfo]
          exact ⟨le_refl _, h⟩
        | false =>
          by_cases hpr : is_part_of_pr_changes fp ls0 fcp = true
          · rcases hgo : generate_output cfg s.cache b fp ls0 le0 d with ⟨c2, r⟩
            cases r with
            | error e =>
              rw [step_goerr cfg fcp pref s l fp b ls0 le0 d c2 e herr hexc
                hstart hinfo hpr hgo]
              exact ⟨le_refl _, h⟩
            | ok nl =>
              by_cases hlim : check_for_char_limit cfg.commentMax s.counter nl = true
              · have hparts : pyStartsWith l pref = true ∧
                    (!cfg.excludedDir l) = true := by
                  simpa [Bool.and_eq_true] using hstart
                rw [step_pass cfg fcp pref s l fp b ls0 le0 d c2 nl herr hexc
                  hparts.1 (by simpa using hparts.2) hinfo hpr hgo hlim]
                simp only [check_for_char_limit, decide_eq_true_eq] at hlim
                dsimp only
                omega
              · rw [Bool.not_eq_true] at hlim
                have hparts : pyStartsWith l pref = true ∧
                    (!cfg.excludedDir l) = true := by
                  simpa [Bool.and_eq_true] using hstart
                rw [step_breach cfg fcp pref s l fp b ls0 le0 d c2 nl herr hexc
                  hparts.1 (by simpa using hparts.2) hinfo hpr hgo hlim]
                exact ⟨h, le_refl _⟩
          · rw [Bool.not_eq_true] at hpr
            rw [step_filtered cfg fcp pref s l fp b ls0 le0 d herr hexc hstart
              hinfo hpr]
            exact ⟨le_refl _, h⟩
    · rw [Bool.not_eq_true] at hstart
      rw [step_nomatch cfg fcp otc pref s l herr hexc hstart]
      exact ⟨le_refl _, h⟩

theorem runLines_counter_mono (cfg : Cfg) (fcp : FCP) (otc : Bool)
    (pref : String) (ls : List String) (s : AggState)
    (h : s.counter ≤ cfg.commentMax) :
    s.counter ≤ (runLines cfg fcp otc pref s ls).counter ∧
      (runLines cfg fcp otc pref s ls).counter ≤ cfg.commentMax := by
  induction ls generalizing s with
  | nil => exact ⟨le_refl _, h⟩
  | cons l ls ih =>
    rw [runLines_cons]
    have hstep := step_counter_mono cfg fcp otc pref s l h
    have hrec := ih (step cfg fcp otc pref s l) hstep.2
    exact ⟨hstep.1.trans hrec.1, hrec.2⟩

theorem step_budget_inv (cfg : Cfg) (fcp : FCP) (pref : String)
    (s : AggState) (l : String) (c0 : Nat)
    (hlow : c0 + entriesLen s.issues + s.pending.length ≤ s.counter)
    (hhigh : s.counter ≤ cfg.commentMax) :
    c0 + entriesLen (step cfg fcp false pref s l).issues +
        (step cfg fcp false pref s l).pending.length ≤
      (step cfg fcp false pref s l).counter ∧
    (step cfg fcp false pref s l).counter ≤ cfg.commentMax := by
  by_cases hfr : (s.error.isSome || s.exceeded) = true
  · rw [step_frozen cfg fcp false pref s l hfr]
    omega
  · have herr : s.error = none := by
      cases hx : s.error <;> simp [hx] at hfr ⊢
    have hexc : s.exceeded = false := by
      cases hx : s.exceeded <;> simp [hx] at hfr ⊢
    by_cases hstart : (pyStartsWith l pref && !cfg.excludedDir l) = true
    · cases hinfo : extract_info cfg l pref with
      | none =>
        rw [step_parse_error cfg fcp false pref s l herr hexc hstart hinfo]
        exact ⟨hlow, hhigh⟩
      | some info =>
        obtain ⟨fp, b, ls0, le0, d⟩ := info
        by_cases hpr : is_part_of_pr_changes fp ls0 fcp = true
        · rcases hgo : generate_output cfg s.cache b fp ls0 le0 d with ⟨c2, r⟩
          cases r with
          | error e =>
            rw [step_goerr cfg fcp pref s l fp b ls0 le0 d c2 e herr hexc
              hstart hinfo hpr hgo]
            exact ⟨hlow, hhigh⟩
          | ok nl =>
            have hparts : pyStartsWith l pref = true ∧
                (!cfg.excludedDir l) = true := by
              simpa [Bool.and_eq_true] using hstart
            by_cases hlim : check_for_char_limit cfg.commentMax s.counter nl = true
            · rw [step_pass cfg fcp pref s l fp b ls0 le0 d c2 nl herr hexc
                hparts.1 (by simpa using hparts.2) hinfo hpr hgo hlim]
              simp only [check_for_char_limit, decide_eq_true_eq] at hlim
              have hb := append_issue_budget b s.pending nl s.issues
              dsimp only
              omega
            · rw [Bool.not_eq_true] at hlim
              rw [step_breach cfg fcp pref s l fp b ls0 le0 d c2 nl herr hexc
                hparts.1 (by simpa using hparts.2) hinfo hpr hgo hlim]
              dsimp only
              omega
        · rw [Bool.not_eq_true] at hpr
          rw [step_filtered cfg fcp pref s l fp b ls0 le0 d herr hexc hstart
            hinfo hpr]
          exact ⟨hlow, hhigh⟩
    · rw [Bool.not_eq_true] at hstart
      rw [step_nomatch cfg fcp false pref s l herr hexc hstart]
      exact ⟨hlow, hhigh⟩

theorem runLines_budget_inv (cfg : Cfg) (fcp : FCP) (pref : String)
    (ls : List String) (s : AggState) (c0 : Nat)
    (hlow : c0 + entriesLen s.issues + s.pending.length ≤ s.counter)
    (hhigh : s.counter ≤ cfg.commentMax) :
    c0 + entriesLen (runLines cfg fcp false pref s ls).issues +
        (runLines cfg fcp false pref s ls).pending.length ≤
      (runLines cfg fcp false pref s ls).counter ∧
    (runLines cfg fcp false pref s ls).counter ≤ cfg.commentMax := by
  induction ls generalizing s with
  | nil => exact ⟨hlow, hhigh⟩
  | cons l ls ih =>
    rw [runLines_cons]
    have hstep := step_budget_inv cfg fcp pref s l c0 hlow hhigh
    exact ih (step cfg fcp false pref s l) hstep.1 hstep.2

/-- C7: with the run started at a counter not above the budget, the counter
is monotonically non-decreasing along the stream and never exceeds the
configured maximum; the cumulative character length of every prefix of the
returned entry list stays within the budget (counted from the starting
counter); and once the budget is breached no further line changes the
state, so no further entries are finalized. -/
theorem c7_budget_law (cfg : Cfg) (fcp : FCP) (pref : String) (g : Globals)
    (pre suf : List String) (h0 : g.counter ≤ cfg.commentMax) :
    (runLines cfg fcp false pref (initState g) pre).counter ≤
      (runLines cfg fcp false pref (initState g) (pre ++ suf)).counter ∧
    (runLines cfg fcp false pref (initState g) (pre ++ suf)).counter ≤
      cfg.commentMax ∧
    (∀ p, p <+: finalIssues (runLines cfg fcp false pref (initState g) (pre ++ suf)) →
      g.counter + entriesLen p ≤ cfg.commentMax) ∧
    ((runLines cfg fcp false pref (initState g) pre).exceeded = true →
      runLines cfg fcp false pref (initState g) (pre ++ suf) =
        runLines cfg fcp false pref (initState g) pre) := by
  have hinit : (initState g).counter ≤ cfg.commentMax := h0
  have hm1 := runLines_counter_mono cfg fcp false pref pre (initState g) hinit
  rw [runLines_append]
  have hm2 := runLines_counter_mono cfg fcp false pref suf
    (runLines cfg fcp false pref (initState g) pre) hm1.2
  refine ⟨hm2.1, hm2.2, ?_, ?_⟩
  · intro p hp
    have hinv := runLines_budget_inv cfg fcp pref (pre ++ suf) (initState g)
      g.counter (by simp [initState, entriesLen]) hinit
    rw [runLines_append] at hinv
    have h1 := entriesLen_mono p _ hp
    have h2 := finalIssues_entriesLen
      (runLines cfg fcp false pref (runLines cfg fcp false pref (initState g) pre) suf)
    omega
  · intro hx
    exact runLines_frozen cfg fcp false pref _ suf (by simp [hx])

/-- Witness for C7 on a concrete one-line stream within budget. -/
theorem c7_budget_law_witness :
    ((initState { cache := [], counter := 0 }).counter ≤ (cfgSame 50).commentMax) ∧
    (runLines (cfgSame 50) fcpA false "w"
        (initState { cache := [], counter := 0 })
        (["wa.cc:1:1: x"] ++ [])).counter ≤ (cfgSame 50).commentMax :=
  ⟨by decide,
   (c7_budget_law (cfgSame 50) fcpA "w" { cache := [], counter := 0 }
     ["wa.cc:1:1: x"] [] (by decide)).2.1⟩

theorem cacheLookup_append (c : Cache) (k p : String) (v : List String) :
    cacheLookup (c ++ [(k, v)]) p =
      match cacheLookup c p with
      | some w => some w
      | none => if k = p then some v else none := by
  induction c with
  | nil => simp [cacheLookup]
  | cons q rest ih =>
    obtain ⟨k1, v1⟩ := q
    by_cases hk : k1 = p
    · simp [cacheLookup, hk]
    · simp only [List.cons_append, cacheLookup, if_neg hk]
      exact ih

theorem consistent_insert (fs : String → Option (List String)) (c : Cache)
    (k : String) (v : List String) (hc : Consistent fs c) (hv : fs k = some v) :
    Consistent fs (cacheInsert c k v) := by
  intro p ls h
  rw [cacheInsert, cacheLookup_append] at h
  cases hl : cacheLookup c p with
  | some w =>
    rw [hl] at h
    cases h
    exact hc _ _ hl
  | none =>
    rw [hl] at h
    by_cases hk : k = p
    · rw [if_pos hk] at h
      cases h
      rw [← hk]
      exact hv
    · rw [if_neg hk] at h
      cases h

theorem generate_output_cross_spec (cfg : Cfg) (c : Cache) (fp : String)
    (ls0 le0 : Nat) (d : String)
    (hr : cfg.targetRepoName ≠ cfg.repoName) (hc : Consistent cfg.fs c) :
    (generate_output cfg c false fp ls0 le0 d).2 =
      (match cfg.fs fp with
       | none => Except.error PyErr.keyError
       | some lines =>
         match pySlice lines ((ls0 : Int) - 1) ((le0 : Int) - 1) with
         | [] => Except.error PyErr.indexError
         | first :: rest =>
           Except.ok ("\n\n------" ++
             "\n\n <b><i>Issue found in file</b></i> [" ++ cfg.repoName ++ "/" ++
             fp ++ "](" ++
             ("https://github.com/" ++ cfg.repoName ++ "/blob/" ++ cfg.sha ++
               "/" ++ fp ++ "#L" ++ toString ls0) ++ ")\n" ++
             "```cpp\n" ++
             String.join ((pyDropLast first ++ " <---- HERE\n") :: rest) ++
             "\n``` \n" ++ d ++ " <br>\n")) ∧
    Consistent cfg.fs (generate_output cfg c false fp ls0 le0 d).1 := by
  unfold generate_output
  simp only [Bool.not_false, if_true, if_pos hr]
  cases hl : cacheLookup c fp with
  | some w =>
    have hf : cfg.fs fp = some w := hc _ _ hl
    rw [hf]
    simp only [hl]
    constructor
    · cases pySlice w ((ls0 : Int) - 1) ((le0 : Int) - 1) <;> rfl
    · cases pySlice w ((ls0 : Int) - 1) ((le0 : Int) - 1) <;> exact hc
  | none =>
    cases hf : cfg.fs fp with
    | none =>
      simp only [hl, hf]
      exact ⟨trivial, hc⟩
    | some lines =>
      have hins := cacheLookup_insert_self c fp lines hl
      simp only [hl, hf, hins]
      constructor
      · cases pySlice lines ((ls0 : Int) - 1) ((le0 : Int) - 1) <;> rfl
      · cases pySlice lines ((ls0 : Int) - 1) ((le0 : Int) - 1) <;>
          exact consistent_insert cfg.fs c fp lines hc hf

theorem generate_output_agree (cfg : Cfg) (c1 c2 : Cache) (b : Bool)
    (fp : String) (ls0 le0 : Nat) (d : String)
    (h1 : Consistent cfg.fs c1) (h2 : Consistent cfg.fs c2) :
    (generate_output cfg c1 b fp ls0 le0 d).2 =
      (generate_output cfg c2 b fp ls0 le0 d).2 ∧
    Consistent cfg.fs (generate_output cfg c1 b fp ls0 le0 d).1 ∧
    Consistent cfg.fs (generate_output cfg c2 b fp ls0 le0 d).1 := by
  cases b with
  | true =>
    unfold generate_output
    exact ⟨rfl, h1, h2⟩
  | false =>
    by_cases hr : cfg.targetRepoName ≠ cfg.repoName
    · have hs1 := generate_output_cross_spec cfg c1 fp ls0 le0 d hr h1
      have hs2 := generate_output_cross_spec cfg c2 fp ls0 le0 d hr h2
      exact ⟨hs1.1.trans hs2.1.symm, hs1.2, hs2.2⟩
    · unfold generate_output
      simp only [Bool.not_false, if_true, if_neg hr]
      exact ⟨trivial, h1, h2⟩

theorem step_agree (cfg : Cfg) (fcp : FCP) (otc : Bool) (pref : String)
    (s t : AggState) (l : String) (hag : Agree s t)
    (hs : Consistent cfg.fs s.cache) (ht : Consistent cfg.fs t.cache) :
    Agree (step cfg fcp otc pref s l) (step cfg fcp otc pref t l) ∧
    Consistent cfg.fs (step cfg fcp otc pref s l).cache ∧
    Consistent cfg.fs (step cfg fcp otc pref t l).cache := by
  obtain ⟨hc, hi, hp0, hw, he, herr0⟩ := hag
  by_cases hfr : (s.error.isSome || s.exceeded) = true
  · rw [step_frozen cfg fcp otc pref s l hfr,
      step_frozen cfg fcp otc pref t l (by rw [← herr0, ← he]; exact hfr)]
    exact ⟨⟨hc, hi, hp0, hw, he, herr0⟩, hs, ht⟩
  · have herr : s.error = none := by
      cases hx : s.error <;> simp [hx] at hfr ⊢
    have hexc : s.exceeded = false := by
      cases hx : s.exceeded <;> simp [hx] at hfr ⊢
    have herrT : t.error = none := herr0 ▸ herr
    have hexcT : t.exceeded = false := he ▸ hexc
    by_cases hstart : (pyStartsWith l pref && !cfg.excludedDir l) = true
    · cases hinfo : extract_info cfg l pref with
      | none =>
        rw [step_parse_error cfg fcp otc pref s l herr hexc hstart hinfo,
          step_parse_error cfg fcp otc pref t l herrT hexcT hstart hinfo]
        exact ⟨⟨hc, hi, hp0, hw, he, rfl⟩, hs, ht⟩
      | some info =>
        obtain ⟨fp, b, ls0, le0, d⟩ := info
        cases otc with
        | true =>
          rw [step_console cfg fcp pref s l fp b ls0 le0 d herr hexc hstart hinfo,
            step_console cfg fcp pref t l fp b ls0 le0 d herrT hexcT hstart hinfo]
          rw [hp0, hi]
          exact ⟨⟨hc, rfl, rfl, hw, he, herr0⟩, hs, ht⟩
        | false =>
          by_cases hpr : is_part_of_pr_changes fp ls0 fcp = true
          · obtain ⟨hgo_eq, hcons1, hcons2⟩ :=
              generate_output_agree cfg s.cache t.cache b fp ls0 le0 d hs ht
            rcases hS : generate_output cfg s.cache b fp ls0 le0 d with ⟨cs, rs⟩
            rcases hT : generate_output cfg t.cache b fp ls0 le0 d with ⟨ct, rt⟩
            rw [hS, hT] at hgo_eq
            rw [hS] at hcons1
            rw [hT] at hcons2
            dsimp only at hgo_eq hcons1 hcons2
            cases rs with
            | error e =>
              cases hgo_eq
              rw [step_goerr cfg fcp pref s l fp b ls0 le0 d cs e herr hexc
                  hstart hinfo hpr hS,
                step_goerr cfg fcp pref t l fp b ls0 le0 d ct e herrT hexcT
                  hstart hinfo hpr hT]
              exact ⟨⟨hc, hi, hp0, rfl, he, rfl⟩, hcons1, hcons2⟩
            | ok nl =>
              cases hgo_eq
              have hparts : pyStartsWith l pref = true ∧
                  (!cfg.excludedDir l) = true := by
                simpa [Bool.and_eq_true] using hstart
              by_cases hlim : check_for_char_limit cfg.commentMax s.counter nl = true
              · rw [step_pass cfg fcp pref s l fp b ls0 le0 d cs nl herr hexc
                    hparts.1 (by simpa using hparts.2) hinfo hpr hS hlim,
                  step_pass cfg fcp pref t l fp b ls0 le0 d ct nl herrT hexcT
                    hparts.1 (by simpa using hparts.2) hinfo hpr hT
                    (by rw [← hc]; exact hlim)]
                rw [hp0, hi, hc]
                exact ⟨⟨rfl, rfl, rfl, rfl, he, herr0⟩, hcons1, hcons2⟩
              · rw [Bool.not_eq_true] at hlim
                rw [step_breach cfg fcp pref s l fp b ls0 le0 d cs nl herr hexc
                    hparts.1 (by simpa using hparts.2) hinfo hpr hS hlim,
                  step_breach cfg fcp pref t l fp b ls0 le0 d ct nl herrT hexcT
                    hparts.1 (by simpa using hparts.2) hinfo hpr hT
                    (by rw [← hc]; exact hlim)]
                rw [hp0]
                exact ⟨⟨rfl, hi, rfl, rfl, rfl, herr0⟩, hcons1, hcons2⟩
          · rw [Bool.not_eq_true] at hpr
            rw [step_filtered cfg fcp pref s l fp b ls0 le0 d herr hexc hstart
                hinfo hpr,
              step_filtered cfg fcp pref t l fp b ls0 le0 d herrT hexcT hstart
                hinfo hpr]
            exact ⟨⟨hc, hi, hp0, hw, he, herr0⟩, hs, ht⟩
    · rw [Bool.not_eq_true] at hstart
      rw [step_nomatch cfg fcp otc pref s l herr hexc hstart,
        step_nomatch cfg fcp otc pref t l herrT hexcT hstart]
      exact ⟨⟨hc, hi, hp0, hw, he, herr0⟩, hs, ht⟩

theorem runLines_agree (cfg : Cfg) (fcp : FCP) (otc : Bool) (pref : String)
    (ls : List String) (s t : AggState) (hag : Agree s t)
    (hs : Consistent cfg.fs s.cache) (ht : Consistent cfg.fs t.cache) :
    Agree (runLines cfg fcp otc pref s ls) (runLines cfg fcp otc pref t ls) ∧
    Consistent cfg.fs (runLines cfg fcp otc pref s ls).cache ∧
    Consistent cfg.fs (runLines cfg fcp otc pref t ls).cache := by
  induction ls generalizing s t with
  | nil => exact ⟨hag, hs, ht⟩
  | cons l ls ih =>
    rw [runLines_cons, runLines_cons]
    have h := step_agree cfg fcp otc pref s t l hag hs ht
    exact ih _ _ h.1 h.2.1 h.2.2

theorem finalIssues_agree (s t : AggState) (hag : Agree s t) :
    finalIssues s = finalIssues t := by
  obtain ⟨hc, hi, hp0, hw, he, herr0⟩ := hag
  unfold finalIssues flushIssues
  rw [he, hi, hp0]

theorem finishRun_agree (s t : AggState) (hag : Agree s t) :
    (finishRun s).1 = (finishRun t).1 := by
  have hf := finalIssues_agree s t hag
  obtain ⟨hc, hi, hp0, hw, he, herr0⟩ := hag
  unfold finishRun
  rw [herr0, hf]
  cases t.error <;> rfl

/-- C9 amended: re-running the aggregation on an identical stream and an
identical non-empty changed-files mapping yields identical ordered output,
provided the running character counter is restored to its starting value
before the second run (the code instead threads the counter between runs,
which the counterexample shows changes the output); the carried-over file
cache does not affect the output because cached entries always equal the
file contents. -/
theorem c9_identical_after_counter_reset (cfg : Cfg)
    (tool_output : List String) (pref : String) (fcp : FCP) (g : Globals)
    (hcons : Consistent cfg.fs g.cache) (hne : fcp ≠ []) :
    (create_comment_for_output cfg tool_output pref fcp false
      { cache := (create_comment_for_output cfg tool_output pref fcp false g).2.cache,
        counter := g.counter }).1 =
    (create_comment_for_output cfg tool_output pref fcp false g).1 := by
  have hrefl : Agree (initState g) (initState g) := ⟨rfl, rfl, rfl, rfl, rfl, rfl⟩
  have hrun1 := runLines_agree cfg fcp false pref tool_output
    (initState g) (initState g) hrefl hcons hcons
  have hcache1 : Consistent cfg.fs
      (create_comment_for_output cfg tool_output pref fcp false g).2.cache := by
    unfold create_comment_for_output finishRun
    cases hx : (runLines cfg fcp false pref (initState g) tool_output).error with
    | some e => exact hrun1.2.1
    | none => exact hrun1.2.1
  have hag2 : Agree
      (initState { cache := (create_comment_for_output cfg tool_output pref fcp
        false g).2.cache, counter := g.counter }) (initState g) :=
    ⟨rfl, rfl, rfl, rfl, rfl, rfl⟩
  have hrun2 := runLines_agree cfg fcp false pref tool_output _ _ hag2 hcache1 hcons
  unfold create_comment_for_output
  exact finishRun_agree _ _ hrun2.1

/-- Witness for C9 amended with an empty consistent cache and a non-empty
mapping. -/
theorem c9_identical_after_counter_reset_witness :
    (create_comment_for_output (cfgSame 50) ["wa.cc:1:1: x"] "w" fcpA false
      { cache := (create_comment_for_output (cfgSame 50) ["wa.cc:1:1: x"] "w"
          fcpA false { cache := [], counter := 0 }).2.cache,
        counter := (({ cache := [], counter := 0 } : Globals)).counter }).1 =
    (create_comment_for_output (cfgSame 50) ["wa.cc:1:1: x"] "w" fcpA false
      { cache := [], counter := 0 }).1 :=
  c9_identical_after_counter_reset (cfgSame 50) ["wa.cc:1:1: x"] "w" fcpA
    { cache := [], counter := 0 }
    (fun p ls h => by simp [cacheLookup] at h) (by simp [fcpA])

/-- C6 amended: with per-tool comments nonempty exactly when the counts are
positive (which is how `create_comment_for_output` produces them), a zero
total yields exactly the "no issues" banner and a nonzero total yields one
collapsible section per tool with positive count, pluralized "1 issue" /
"N issues", with the divider between them — except that when the run was
marked budget-exceeded (counter equal to the maximum) a fixed truncation
notice is appended after the body in either case. -/
theorem c6_formatter_sections (title notice cc ct : String)
    (ncc nct cur mx : Nat)
    (hcc : 0 < cc.length ↔ 0 < ncc) (hct : 0 < ct.length ↔ 0 < nct) :
    prepare_comment_body title notice cc ct ncc nct cur mx =
      (if ncc = 0 ∧ nct = 0 then
        "## <p align=\"center\"><b> :white_check_mark:" ++ title ++
          " - no issues found! :white_check_mark: </b></p>"
      else
        "## <p align=\"center\"><b> :zap: " ++ title ++ " :zap: </b></p> \n\n" ++
        (if 0 < ncc then
          "<details> <summary> <b> :red_circle: cppcheck found " ++
            toString ncc ++ " " ++ (if ncc = 1 then "issue" else "issues") ++
            "! Click here to see details. </b> </summary> <br>" ++ cc ++
            " </details>"
         else "") ++
        "\n\n *** \n" ++
        (if 0 < nct then
          "<details> <summary> <b> :red_circle: clang-tidy found " ++
            toString nct ++ " " ++ (if nct = 1 then "issue" else "issues") ++
            "! Click here to see details. </b> </summary> <br>" ++ ct ++
            " </details><br>\n"
         else "")) ++
      (if cur = mx then "\n```diff\n" ++ notice ++ "\n```" else "") := by
  have hplc : 0 < ncc → (if ncc > 1 then "issues" else "issue") =
      (if ncc = 1 then "issue" else "issues") := by
    intro hpos
    rcases Nat.lt_or_ge 1 ncc with h | h
    · rw [if_pos h, if_neg (by omega)]
    · have h1 : ncc = 1 := by omega
      rw [h1]
      simp
  have hplt : 0 < nct → (if nct > 1 then "issues" else "issue") =
      (if nct = 1 then "issue" else "issues") := by
    intro hpos
    rcases Nat.lt_or_ge 1 nct with h | h
    · rw [if_pos h, if_neg (by omega)]
    · have h1 : nct = 1 := by omega
      rw [h1]
      simp
  simp only [prepare_comment_body]
  by_cases hz : ncc = 0 ∧ nct = 0
  · rw [if_pos hz, if_pos hz]
    by_cases hm : cur = mx
    · rw [if_pos hm, if_pos hm]
      simp only [String.append_assoc]
    · rw [if_neg hm, if_neg hm, String.append_empty]
  · rw [if_neg hz, if_neg hz]
    by_cases hpc : 0 < ncc
    · have hclen : cc.length > 0 := hcc.mpr hpc
      rw [if_pos hclen, if_pos hpc, hplc hpc]
      by_cases hpt : 0 < nct
      · have htlen : ct.length > 0 := hct.mpr hpt
        rw [if_pos htlen, if_pos hpt, hplt hpt]
        by_cases hm : cur = mx
        · rw [if_pos hm, if_pos hm]
          simp only [String.append_empty, String.append_assoc]
        · rw [if_neg hm, if_neg hm]
          simp only [String.append_empty, String.append_assoc]
      · have htlen : ¬ ct.length > 0 := fun h => hpt (hct.mp h)
        rw [if_neg htlen, if_neg hpt]
        by_cases hm : cur = mx
        · rw [if_pos hm, if_pos hm]
          simp only [String.append_empty, String.append_assoc]
        · rw [if_neg hm, if_neg hm]
          simp only [String.append_empty, String.append_assoc]
    · have hclen : ¬ cc.length > 0 := fun h => hpc (hcc.mp h)
      rw [if_neg hclen, if_neg hpc]
      by_cases hpt : 0 < nct
      · have htlen : ct.length > 0 := hct.mpr hpt
        rw [if_pos htlen, if_pos hpt, hplt hpt]
        by_cases hm : cur = mx
        · rw [if_pos hm, if_pos hm]
          simp only [String.append_empty, String.append_assoc]
        · rw [if_neg hm, if_neg hm]
          simp only [String.append_empty, String.append_assoc]
      · have htlen : ¬ ct.length > 0 := fun h => hpt (hct.mp h)
        rw [if_neg htlen, if_neg hpt]
        by_cases hm : cur = mx
        · rw [if_pos hm, if_pos hm]
          simp only [String.append_empty, String.append_assoc]
        · rw [if_neg hm, if_neg hm]
          simp only [String.append_empty, String.append_assoc]

/-- Witness for C6 amended: one cppcheck issue, no clang-tidy issues, no
budget excess. -/
theorem c6_formatter_sections_witness :
    prepare_comment_body "T" "N" "x" "" 1 0 0 5 =
      ("## <p align=\"center\"><b> :zap: " ++ "T" ++ " :zap: </b></p> \n\n" ++
        ("<details> <summary> <b> :red_circle: cppcheck found " ++
          toString 1 ++ " " ++ "issue" ++
          "! Click here to see details. </b> </summary> <br>" ++ "x" ++
          " </details>") ++
        "\n\n *** \n" ++ "") ++ "" := by
  have h := c6_formatter_sections "T" "N" "x" "" 1 0 0 5
    (by decide) (by decide)
  simpa using h

end StaticAnalysis
